import Mathlib

/-!
Shallow embedding of the karo 1d discrete-event particle simulator
(modules `datastructures.py`, `framework.py`, `constituents.py`,
`baseparticles.py`) and proofs about its behaviour.

Times are modelled as rationals (`ℚ`); Python floats enter the code only
through comparisons and exact additions/subtractions at the granularity the
claims speak about, so the ordered-field structure is what matters.
-/

namespace Karo

/-! ## OrderedLinkedList (datastructures.py)

The list is a singly linked chain of nodes `(t, data)` hanging off a dummy
head, kept sorted by `t`.  We model the chain after the head as a plain
`List (ℚ × α)`.  `lastNodeBefore t` walks `while curnode.next.t < t`, i.e. it
skips the maximal prefix of entries with time strictly below `t`; `insert`
places the new node right there, i.e. before every entry whose time is `≥ t`.
`pop` removes and returns the first node (raising `EmptyList` when there is
none, modelled by `Option`). -/

abbrev OLL (α : Type) := List (ℚ × α)

namespace OLL

/-- `OrderedLinkedList.insert`: the new node goes after the maximal prefix of
nodes with time strictly smaller than `t` (cf. `lastNodeBefore`). -/
def insert (t : ℚ) (d : α) (l : OLL α) : OLL α :=
  l.takeWhile (fun p => decide (p.1 < t)) ++ (t, d) :: l.dropWhile (fun p => decide (p.1 < t))

/-- `OrderedLinkedList.pop`: remove and return the first node;
`none` models the `EmptyList` exception. -/
def pop (l : OLL α) : Option ((ℚ × α) × OLL α) :=
  match l with
  | [] => none
  | x :: rest => some (x, rest)

end OLL

/-! ## Collider action execution (framework.py, `Collider.execute`)

`Collider.newCollision` appends (`+=`) the actions produced by matching rules
to `self.nextActions`; `Collider.execute` repeatedly does
`self.nextActions.pop()(sim)` until the list raises `IndexError`.  Python's
`list.pop()` with no argument removes and returns the **last** element.
Actions mutate the simulation; we model an action as a state transformer. -/

abbrev Action (σ : Type) := σ → σ

namespace Collider

/-- `Collider.execute`: `while True: self.nextActions.pop()(sim)` until
`IndexError`.  Returns the final pending list (always `[]`) and the state. -/
def execute (pending : List (Action σ)) (s : σ) : List (Action σ) × σ :=
  match h : pending with
  | [] => ([], s)
  | _ :: _ =>
    execute pending.dropLast (pending.getLast (by simp [h]) s)
termination_by pending.length
decreasing_by
  simp_all [List.length_dropLast]

end Collider

/-! ### Helper lemmas -/

theorem takeWhile_append_middle {P : α → Bool} {b : α} (A B : List α)
    (hA : ∀ a ∈ A, P a = true) (hb : P b = false) :
    (A ++ b :: B).takeWhile P = A := by
  induction A with
  | nil => simp [List.takeWhile, hb]
  | cons a A ih =>
    have ha : P a = true := hA a (by simp)
    simp only [List.cons_append, List.takeWhile, ha]
    have : (A ++ b :: B).takeWhile P = A := ih (fun x hx => hA x (by simp [hx]))
    simp [this]

theorem dropWhile_append_middle {P : α → Bool} {b : α} (A B : List α)
    (hA : ∀ a ∈ A, P a = true) (hb : P b = false) :
    (A ++ b :: B).dropWhile P = b :: B := by
  induction A with
  | nil => simp [List.dropWhile, hb]
  | cons a A ih =>
    have ha : P a = true := hA a (by simp)
    simp only [List.cons_append, List.dropWhile, ha]
    exact ih (fun x hx => hA x (by simp [hx]))

theorem mem_takeWhile_sat {P : α → Bool} {l : List α} :
    ∀ a ∈ l.takeWhile P, P a = true := by
  intro a ha
  induction l with
  | nil => simp [List.takeWhile] at ha
  | cons x xs ih =>
    by_cases hx : P x = true
    · simp [List.takeWhile, hx] at ha
      rcases ha with h | h
      · rwa [h]
      · exact ih h
    · simp [List.takeWhile, Bool.of_not_eq_true hx] at ha

theorem execute_nil {σ : Type} (s : σ) :
    Collider.execute ([] : List (Action σ)) s = ([], s) := by
  rw [Collider.execute.eq_def]

theorem execute_step {σ : Type} (l : List (Action σ)) (hl : l ≠ []) (s : σ) :
    Collider.execute l s = Collider.execute l.dropLast (l.getLast hl s) := by
  rw [Collider.execute.eq_def]
  match l, hl with
  | x :: rest, _ => rfl

theorem execute_concat {σ : Type} (pending : List (Action σ)) (a : Action σ) (s : σ) :
    Collider.execute (pending ++ [a]) s = Collider.execute pending (a s) := by
  rw [execute_step (pending ++ [a]) (by simp) s]
  have h1 : (pending ++ [a]).dropLast = pending := by simp
  have h2 : (pending ++ [a]).getLast (by simp) = a := by
    simp [List.getLast_concat]
  rw [h1, h2]

theorem execute_pending_empty_aux {σ : Type} :
    ∀ (n : ℕ) (pending : List (Action σ)) (s : σ), pending.length = n →
      (Collider.execute pending s).1 = [] := by
  intro n
  induction n with
  | zero =>
    intro pending s hn
    have : pending = [] := List.length_eq_zero.mp hn
    subst this
    rw [Collider.execute.eq_def]
  | succ n ih =>
    intro pending s hn
    match pending with
    | [] => simp at hn
    | x :: rest =>
      rw [Collider.execute.eq_def]
      simp only []
      apply ih
      simp [List.length_dropLast] at hn ⊢
      omega

theorem execute_pending_empty {σ : Type} (pending : List (Action σ)) (s : σ) :
    (Collider.execute pending s).1 = [] :=
  execute_pending_empty_aux pending.length pending s rfl

theorem execute_eq_reverse_foldl {σ : Type} (pending : List (Action σ)) (s : σ) :
    Collider.execute pending s = ([], pending.reverse.foldl (fun st a => a st) s) := by
  induction pending using List.reverseRecOn generalizing s with
  | nil => simp [execute_nil]
  | append_singleton xs a ih =>
    rw [execute_concat, ih]
    simp

/-! ## Simulation.run (framework.py)

The main loop pops the earliest queue entry, sets `self.time` to the popped
time — clamping to the deadline `T` and arming the exit flag when the popped
time exceeds it — and then invokes the popped payload's `update` handler
unconditionally (there is no `break` before the `update` call).  Payloads are
identified by numbers; the handlers are an environment `env` mapping a payload
id to an arbitrary state transformer, mirroring that `update` has full access
to the simulation.  The state carries an abstract `world` component on which
handlers can leave observable effects.  `fuel` bounds the number of loop
iterations (the Python loop may run unboundedly; every claim below is about
runs that exit within the given fuel). -/

structure SimState (ω : Type) where
  time : ℚ
  queue : OLL ℕ
  world : ω

/-- Loop body of `Simulation.run`, after `T += self.time` has produced the
absolute deadline `T`.  `none` from `pop` models the `EmptyList` exception
caught for clean termination. -/
def runLoop (env : ℕ → SimState ω → SimState ω) : ℕ → ℚ → SimState ω → SimState ω
  | 0, _, s => s
  | fuel + 1, T, s =>
    match OLL.pop s.queue with
    | none => s
    | some ((t, uid), rest) =>
      let s2 := env uid { time := if t > T then T else t, queue := rest, world := s.world }
      if t > T then s2 else runLoop env fuel T s2

/-- `Simulation.run(T)`: computes the absolute deadline `self.time + T` and
enters the loop. -/
def Simulation.run (env : ℕ → SimState ω → SimState ω) (fuel : ℕ) (T : ℚ)
    (s : SimState ω) : SimState ω :=
  runLoop env fuel (s.time + T) s

/-- Environment in which handler `uid` appends its id to the world log;
used to observe which update handlers actually ran. -/
def logEnv (uid : ℕ) (s : SimState (List ℕ)) : SimState (List ℕ) :=
  { s with world := s.world ++ [uid] }

/-! ## Claim C1 -/

/-- C1: the claim states that when the popped entry has time `t > T_end` the
loop clamps the time and exits **without invoking that entry's update
handler**.  This is false: the `update` call is unconditional.  Running a
simulation whose only queue entry is handler `7` scheduled at time `5` with a
deadline of `3` ends with `7` in the invocation log (and with the time clamped
to `3`), so an update scheduled past `T_end` is executed. -/
theorem run_invokes_clamped_update_counterexample :
    Simulation.run logEnv 1 3 ⟨0, [(5, 7)], []⟩ = ⟨3, [], [7]⟩ ∧
      ([7] : List ℕ) ≠ [] := by
  constructor
  · norm_num [Simulation.run, runLoop, OLL.pop, logEnv]
  · decide

/-- C1 (amended): when the popped earliest entry has time `t > T_end`, the
loop clamps the simulation time to `T_end`, still invokes that entry's update
handler exactly once — at the clamped time — and then exits without processing
any further queue entry; and as long as update handlers never write the
simulation time themselves, `sim.time` never exceeds `T_end`. -/
theorem run_clamps_and_invokes_once {ω : Type} (env : ℕ → SimState ω → SimState ω)
    (henv : ∀ uid s, (env uid s).time = s.time) :
    (∀ (fuel : ℕ) (T : ℚ) (s : SimState ω) t uid rest,
        OLL.pop s.queue = some ((t, uid), rest) → t > T →
        runLoop env (fuel + 1) T s = env uid ⟨T, rest, s.world⟩) ∧
    (∀ (fuel : ℕ) (T : ℚ) (s : SimState ω), s.time ≤ T →
        (runLoop env fuel T s).time ≤ T) := by
  constructor
  · intro fuel T s t uid rest hpop ht
    simp only [runLoop, hpop, if_pos ht]
  · intro fuel
    induction fuel with
    | zero => intro T s hs; exact hs
    | succ n ih =>
      intro T s hs
      rw [runLoop]
      match hpop : OLL.pop s.queue with
      | none => exact hs
      | some ((t, uid), rest) =>
        simp only []
        by_cases ht : t > T
        · rw [if_pos ht, henv]
          simp [if_pos ht]
        · rw [if_neg ht]
          apply ih
          rw [henv]
          simp [if_neg ht]
          exact le_of_not_lt ht

/-- Witness for C1 (amended): concrete instantiation with the logging
environment, one queue entry at time `5`, deadline `3`. -/
theorem run_clamps_and_invokes_once_witness :
    runLoop logEnv 1 3 ⟨0, [(5, 7)], ([] : List ℕ)⟩ = logEnv 7 ⟨3, [], []⟩ ∧
      (runLoop logEnv 1 3 ⟨0, [(5, 7)], ([] : List ℕ)⟩).time ≤ 3 := by
  have h := run_clamps_and_invokes_once logEnv (fun uid s => rfl)
  exact ⟨h.1 0 3 ⟨0, [(5, 7)], []⟩ 5 7 [] rfl (by norm_num),
    h.2 1 3 ⟨0, [(5, 7)], []⟩ (by norm_num)⟩

/-! ## Claim C2 -/

/-- C2: the claim states that entries with identical times are popped in
insertion (FIFO) order.  This is false: `insert` places a new node before all
existing nodes of the same time (`lastNodeBefore` advances only past strictly
smaller times), so `pop` after inserting `1` then `2` at time `0` returns the
later-inserted `2`, not `1`. -/
theorem oll_tie_fifo_counterexample :
    OLL.pop (OLL.insert 0 2 (OLL.insert 0 1 ([] : OLL ℕ)))
      = some ((0, 2), [(0, 1)]) ∧ (2 : ℕ) ≠ 1 := by
  constructor
  · rfl
  · decide

/-- C2 (amended): entries with identical times are popped in reverse-insertion
(LIFO) order: inserting `x` at time `t` and then `y` at the same `t` leaves
`y` directly in front of `x`, both after all strictly earlier entries, so `y`
is popped before `x`. -/
theorem oll_tie_lifo {α : Type} (l : OLL α) (t : ℚ) (x y : α) :
    OLL.insert t y (OLL.insert t x l)
      = l.takeWhile (fun p => decide (p.1 < t))
        ++ (t, y) :: (t, x) :: l.dropWhile (fun p => decide (p.1 < t)) := by
  unfold OLL.insert
  have hb : (fun (p : ℚ × α) => decide (p.1 < t)) (t, x) = false := by simp
  have hA : ∀ a ∈ l.takeWhile (fun p : ℚ × α => decide (p.1 < t)),
      (fun (p : ℚ × α) => decide (p.1 < t)) a = true := mem_takeWhile_sat
  rw [takeWhile_append_middle _ _ hA hb, dropWhile_append_middle _ _ hA hb]

/-! ## Claim C3 -/

/-- C3: the claim states that `Collider.execute` drains the pending list in
FIFO order.  This is false: `list.pop()` removes the last element, so for the
pending list `[append 1, append 2]` the observed log is `[2, 1]`, not the FIFO
log `[1, 2]`. -/
theorem collider_execute_fifo_counterexample :
    Collider.execute [fun s => s ++ [1], fun s => s ++ [2]] ([] : List ℕ)
      = ([], [2, 1]) ∧ ([2, 1] : List ℕ) ≠ [1, 2] := by
  constructor
  · rw [show ([fun s => s ++ [1], fun s => s ++ [2]] : List (Action (List ℕ)))
        = [fun s => s ++ [1]] ++ [fun s => s ++ [2]] from rfl,
      execute_concat,
      show ([fun s => s ++ [1]] : List (Action (List ℕ)))
        = [] ++ [fun s => s ++ [1]] from rfl,
      execute_concat, execute_nil]
    rfl
  · decide

/-- C3 (amended): `Collider.execute` invokes the accumulated pending actions
in LIFO order — the action appended last by `newCollision` runs first — and
the pending list is empty afterwards.  Formally, running `execute` equals
folding the actions over the state in reverse list order, with an empty
pending list as a result. -/
theorem collider_execute_lifo {σ : Type} (pending : List (Action σ)) (s : σ) :
    Collider.execute pending s = ([], pending.reverse.foldl (fun st a => a st) s) :=
  execute_eq_reverse_foldl pending s

/-! ## Walker.update (baseparticles.py)

On update a walker decrements `untilStep` by the elapsed time
`sim.time - self.lastUpdate` and compares the result against the literal
`1e10` appearing in the source (`if self.untilStep < 1e10:`); if the
comparison holds it invokes `step` and resets `untilStep` to `1/speed`.
Collision checking and the actual track move are not relevant to claim C4 and
are abstracted into the returned Boolean, which records whether `step` was
invoked. -/

structure WalkerState where
  untilStep : ℚ
  lastUpdate : ℚ
  speed : ℚ

/-- Literal threshold from the source line `if self.untilStep < 1e10:`. -/
def walkerThreshold : ℚ := 10 ^ 10

/-- Numerical tolerance used by the sibling countdowns in the same code base
(`FiniteLife.update` and `TimeBasedReporter.update` both compare against
`1e-10`). -/
def countdownTolerance : ℚ := 1 / 10 ^ 10

/-- `Walker.update`: decrement the countdown, invoke `step` when it is below
the source's threshold, reset the countdown on a step; `lastUpdate` is set by
the `super().update` housekeeping.  The Boolean reports whether `step` was
invoked. -/
def Walker.update (w : WalkerState) (simTime : ℚ) : WalkerState × Bool :=
  let u := w.untilStep - (simTime - w.lastUpdate)
  if u < walkerThreshold then
    ({ untilStep := 1 / w.speed, lastUpdate := simTime, speed := w.speed }, true)
  else
    ({ untilStep := u, lastUpdate := simTime, speed := w.speed }, false)

/-! ## Claim C4 -/

/-- C4: the claim (and clearly the intent, given that `FiniteLife.update` and
`TimeBasedReporter.update` use `1e-10` for the same pattern) is that `step` is
invoked exactly when the countdown has reached or crossed zero up to a
tolerance of about `1e-10`.  The code instead compares `untilStep < 1e10`, so
a walker with speed `1` woken after only half its waiting time — countdown
still `1/2`, far above the tolerance — nevertheless invokes `step` and resets
its countdown.  This theorem evaluates the code at that failing input. -/
theorem walker_steps_with_positive_countdown :
    (Walker.update ⟨1, 0, 1⟩ (1 / 2)).2 = true ∧
      (Walker.update ⟨1, 0, 1⟩ (1 / 2)).1.untilStep = 1 ∧
      (1 : ℚ) - (1 / 2 - 0) > countdownTolerance := by
  refine ⟨?_, ?_, ?_⟩
  · norm_num [Walker.update, walkerThreshold]
  · norm_num [Walker.update, walkerThreshold]
  · norm_num [countdownTolerance]

/-! ## Event (constituents.py)

An `Event` stores a countdown and an action.  `Event.update` decrements the
countdown by the elapsed time; if the result is `≤ 0` (exact comparison, no
tolerance) the action is invoked and the event unqueues itself; `lastUpdate`
is set in both cases.  The `queued` flag models membership in
`sim.nextUpdates`; the returned Boolean records whether the action fired. -/

structure EventState where
  countdown : ℚ
  lastUpdate : ℚ
  queued : Bool

/-- `Event.update` body.  The caller (the run loop) has already popped the
event off the queue, so `unqueue` in the fire branch leaves `queued = false`;
in the no-fire branch the flag is whatever it was on entry. -/
def Event.update (e : EventState) (simTime : ℚ) : EventState × Bool :=
  let cd := e.countdown - (simTime - e.lastUpdate)
  if cd ≤ 0 then
    ({ countdown := cd, lastUpdate := simTime, queued := false }, true)
  else
    ({ countdown := cd, lastUpdate := simTime, queued := e.queued }, false)

/-- The run-loop protocol as seen by a single event: `update` is invoked only
on an entry the loop has just popped (popping removes it from the queue), and
an `Event` never re-queues itself.  `fires` counts action invocations along a
list of loop times. -/
def Event.lifecycle (e : EventState) (fires : ℕ) : List ℚ → EventState × ℕ
  | [] => (e, fires)
  | t :: ts =>
    if e.queued then
      let r := Event.update { e with queued := false } t
      Event.lifecycle r.1 (if r.2 then fires + 1 else fires) ts
    else
      Event.lifecycle e fires ts

theorem event_lifecycle_unqueued (ts : List ℚ) (e : EventState) (fires : ℕ)
    (hq : e.queued = false) : Event.lifecycle e fires ts = (e, fires) := by
  induction ts with
  | nil => rfl
  | cons t ts ih => rw [Event.lifecycle, if_neg (by simp [hq]), ih]

theorem event_update_stays_unqueued (e : EventState) (t : ℚ) :
    (Event.update { e with queued := false } t).1.queued = false := by
  unfold Event.update
  by_cases h : e.countdown - (t - e.lastUpdate) ≤ 0 <;> simp [h]

/-! ## Claim C7 -/

/-- C7: the claim states the action fires when the countdown is `≤ 0` within
a numerical tolerance of about `1e-10`.  This is false: `Event.update` uses
the exact comparison `self.countdown <= 0`.  An event whose countdown equals
`1e-10` — i.e. zero within that tolerance — does not fire. -/
theorem event_tolerance_counterexample :
    (Event.update ⟨1 / 10 ^ 10, 0, true⟩ 0).2 = false ∧
      (1 : ℚ) / 10 ^ 10 - (0 - 0) ≤ countdownTolerance := by
  constructor
  · norm_num [Event.update]
  · norm_num [countdownTolerance]

/-- C7 (amended): every update decrements the countdown by
`sim.time − lastUpdate`; the action fires exactly when the decremented
countdown is `≤ 0` — an exact comparison, with no numerical tolerance — and
the event then removes itself from the queue; under the run-loop protocol
(updates happen only on popped entries and events never re-queue) the action
fires at most once over the event's lifetime. -/
theorem event_fires_at_most_once :
    (∀ (e : EventState) (t : ℚ),
        (Event.update e t).1.countdown = e.countdown - (t - e.lastUpdate)) ∧
    (∀ (e : EventState) (t : ℚ),
        (Event.update e t).2 = true ↔ e.countdown - (t - e.lastUpdate) ≤ 0) ∧
    (∀ (e : EventState) (t : ℚ),
        (Event.update e t).2 = true → (Event.update e t).1.queued = false) ∧
    (∀ (e : EventState) (ts : List ℚ), (Event.lifecycle e 0 ts).2 ≤ 1) := by
  refine ⟨?_, ?_, ?_, ?_⟩
  · intro e t
    unfold Event.update
    by_cases h : e.countdown - (t - e.lastUpdate) ≤ 0 <;> simp [h]
  · intro e t
    unfold Event.update
    by_cases h : e.countdown - (t - e.lastUpdate) ≤ 0 <;> simp [h]
  · intro e t
    unfold Event.update
    by_cases h : e.countdown - (t - e.lastUpdate) ≤ 0 <;> simp [h]
  · intro e ts
    match ts with
    | [] => simp [Event.lifecycle]
    | t :: ts =>
      rw [Event.lifecycle]
      by_cases hq : e.queued
      · rw [if_pos hq]
        rw [event_lifecycle_unqueued ts _ _ (event_update_stays_unqueued e t)]
        by_cases hf : (Event.update { e with queued := false } t).2 <;> simp [hf]
      · rw [if_neg hq, event_lifecycle_unqueued ts e 0 (by simpa using hq)]
        simp

/-- Witness for C7 (amended): an event with countdown `0` updated at time `1`
fires, unqueues, and over its lifecycle fires exactly once. -/
theorem event_fires_at_most_once_witness :
    (Event.update ⟨0, 0, true⟩ 1).1.countdown = 0 - (1 - 0) ∧
      ((Event.update ⟨0, 0, true⟩ 1).2 = true ↔ (0 : ℚ) - (1 - 0) ≤ 0) ∧
      ((Event.update ⟨0, 0, true⟩ 1).2 = true →
        (Event.update ⟨0, 0, true⟩ 1).1.queued = false) ∧
      (Event.lifecycle ⟨0, 0, true⟩ 0 [1, 2]).2 ≤ 1 := by
  have h := event_fires_at_most_once
  exact ⟨h.1 ⟨0, 0, true⟩ 1, h.2.1 ⟨0, 0, true⟩ 1, h.2.2.1 ⟨0, 0, true⟩ 1,
    h.2.2.2 ⟨0, 0, true⟩ [1, 2]⟩

/-! ## Track cells and Particle.load (framework.py / constituents.py)

`Track.__init__` builds the track as `[set() for _ in range(L)]` — the cells
are Python `set` objects (and `Track.remove`, `Track.aggregate` and the unit
tests all use set operations on them).  `Particle.load`, however, ends with
`sim.track[self.position].append(self)`, and `set` objects have no `append`
method.  To capture this the cell values carry their Python kind: `append`
succeeds only on lists, `add` only on sets; calling a missing method raises
`AttributeError`. -/

inductive PyError where
  | attributeError : PyError
deriving DecidableEq

/-- A Python value stored in a track cell, tagged with its runtime kind. -/
inductive CellVal where
  | pyset (elems : List ℕ)
  | pylist (elems : List ℕ)
deriving DecidableEq

/-- Python `x.append(v)`: a list method; raises `AttributeError` on a set. -/
def CellVal.append (c : CellVal) (x : ℕ) : Except PyError CellVal :=
  match c with
  | .pylist l => .ok (.pylist (l ++ [x]))
  | .pyset _ => .error .attributeError

/-- `Track.__init__(L)`: `[set() for _ in range(L)]`. -/
def Track.mkCells (L : ℕ) : List CellVal :=
  List.replicate L (CellVal.pyset [])

/-- Final statement of `Particle.load` (after the `Loadable.load`
bookkeeping): `sim.track[self.position].append(self)`.  For an in-range
position the live cell is fetched and mutated in place; for an out-of-range
position `BoundSafeList.__getitem__` hands out a deep copy of the empty-set
sentinel, whose mutation would be discarded — either way the cell is a set
and `append` raises `AttributeError`. -/
def Particle.load (track : List CellVal) (p : ℕ) (agent : ℕ) :
    Except PyError (List CellVal) :=
  if hp : p < track.length then
    match (track.get ⟨p, hp⟩).append agent with
    | .ok c => .ok (track.set p c)
    | .error err => .error err
  else
    match (CellVal.pyset []).append agent with
    | .ok _ => .ok track
    | .error err => .error err

/-- `Simulation.__init__(L, markEnds)`, restricted to the track effects: a
fresh track of `L` set cells; when `markEnds` is set, `TrackEnd(0)` and
`TrackEnd(L-1)` are loaded via `Particle.load` (marker agents `0` and `1`). -/
def Simulation.initTrack (L : ℕ) (markEnds : Bool) : Except PyError (List CellVal) :=
  let track := Track.mkCells L
  if markEnds then do
    let track1 ← Particle.load track 0 0
    Particle.load track1 (L - 1) 1
  else .ok track

/-! ## Claim C5 -/

/-- C5: the claim states that loading a `Particle` at position `p` succeeds
and that `Simulation(L, markEnds=true)` places `TrackEnd` sentinels in cells
`0` and `L-1`.  The repo's own test suite (`test_simplerun` constructs
`Simulation(L=100)`) expects the same.  The code instead raises
`AttributeError`: track cells are `set` objects and `Particle.load` calls
`.append` on one.  This theorem evaluates the code at the failing inputs
`Particle.load` at position `2` of a 5-cell track and `Simulation(5,
markEnds=True)`. -/
theorem particle_load_crashes_on_set_cell :
    Particle.load (Track.mkCells 5) 2 0 = .error .attributeError ∧
      Simulation.initTrack 5 true = .error .attributeError := by
  constructor
  · rfl
  · rfl

/-! ## BoundSafeList.__getitem__ with explicit object identity
(datastructures.py)

Claim C6 is about aliasing: an out-of-bounds read must return a *fresh* empty
set, never a shared sentinel.  To make freshness expressible we model the
Python object graph explicitly: a heap is an arena of set objects, a
reference is an index into it, and `deepcopy` allocates a new object with
equal contents.  The `BoundSafeList` holds references to its live cells and a
reference to `self.outOfBounds_value`. -/

structure Heap where
  store : List (Finset ℕ)
deriving DecidableEq

/-- Dereference: contents of the set object behind reference `r`. -/
def Heap.read (h : Heap) (r : ℕ) : Finset ℕ := h.store.getD r ∅

/-- In-place mutation of the set object behind reference `r`. -/
def Heap.write (h : Heap) (r : ℕ) (v : Finset ℕ) : Heap := ⟨h.store.set r v⟩

/-- Allocation of a fresh object holding `v`; returns the new reference. -/
def Heap.alloc (h : Heap) (v : Finset ℕ) : Heap × ℕ :=
  (⟨h.store ++ [v]⟩, h.store.length)

structure BoundSafeList where
  cells : List ℕ
  oobRef : ℕ
deriving DecidableEq

/-- `BoundSafeList.__getitem__` for an integer key: a key in `[0, len)`
returns the live cell reference unchanged; any other key returns
`deepcopy(self.outOfBounds_value)` — a freshly allocated object with the
sentinel's contents. -/
def BoundSafeList.getitem (b : BoundSafeList) (h : Heap) (i : ℤ) : Heap × ℕ :=
  if 0 ≤ i ∧ i < (b.cells.length : ℤ) then
    (h, b.cells.getD i.toNat 0)
  else
    h.alloc (h.read b.oobRef)

/-- Well-formedness of a track as built by `Track.__init__`: all cell
references and the sentinel reference are allocated, the sentinel is not
aliased by any cell, and the sentinel set is empty. -/
def BoundSafeList.WF (b : BoundSafeList) (h : Heap) : Prop :=
  b.oobRef < h.store.length ∧
    (∀ r ∈ b.cells, r < h.store.length) ∧
    b.oobRef ∉ b.cells ∧
    h.read b.oobRef = ∅

theorem heap_read_write_self (h : Heap) (r : ℕ) (v : Finset ℕ)
    (hr : r < h.store.length) : (h.write r v).read r = v := by
  simp [Heap.read, Heap.write, List.getD, List.getElem?_set_self, hr]

theorem heap_read_write_ne (h : Heap) (r r' : ℕ) (v : Finset ℕ)
    (hne : r ≠ r') : (h.write r v).read r' = h.read r' := by
  simp [Heap.read, Heap.write, List.getD, List.getElem?_set_ne hne]

theorem heap_read_alloc_fresh (h : Heap) (v : Finset ℕ) :
    ((h.alloc v).1).read (h.alloc v).2 = v := by
  simp [Heap.read, Heap.alloc, List.getD, List.getElem?_append_right]

theorem heap_read_alloc_old (h : Heap) (v : Finset ℕ) (r : ℕ)
    (hr : r < h.store.length) : ((h.alloc v).1).read r = h.read r := by
  simp [Heap.read, Heap.alloc, List.getD, List.getElem?_append_left hr]

theorem heap_write_length (h : Heap) (r : ℕ) (v : Finset ℕ) :
    ((h.write r v).store).length = h.store.length := by
  simp [Heap.write]

/-! ## Claim C6 -/

/-- C6: for every integer index `i` outside `[0, L)`, reading the track cell
at `i` returns a fresh empty cell — a newly allocated empty set aliasing
neither the sentinel nor any live cell, so that mutating the returned object
changes no live cell and a later out-of-bounds read is again empty — while
for `i` in `[0, L)` the read returns the live cell, whose mutations are
observed. -/
theorem boundsafe_getitem_fresh_oob_live_inrange (b : BoundSafeList) (h : Heap)
    (hwf : b.WF h) :
    (∀ i : ℤ, ¬(0 ≤ i ∧ i < (b.cells.length : ℤ)) →
      (b.getitem h i).2 ∉ b.cells ∧
      (b.getitem h i).2 ≠ b.oobRef ∧
      ((b.getitem h i).1).read (b.getitem h i).2 = ∅ ∧
      (∀ (v : Finset ℕ), ∀ r ∈ b.cells,
        (((b.getitem h i).1).write (b.getitem h i).2 v).read r = h.read r) ∧
      (∀ (v : Finset ℕ) (i' : ℤ), ¬(0 ≤ i' ∧ i' < (b.cells.length : ℤ)) →
        (b.getitem (((b.getitem h i).1).write (b.getitem h i).2 v) i').1.read
          (b.getitem (((b.getitem h i).1).write (b.getitem h i).2 v) i').2 = ∅)) ∧
    (∀ i : ℤ, (0 ≤ i ∧ i < (b.cells.length : ℤ)) →
      b.getitem h i = (h, b.cells.getD i.toNat 0) ∧
      (∀ v : Finset ℕ,
        (h.write (b.cells.getD i.toNat 0) v).read (b.cells.getD i.toNat 0) = v)) := by
  obtain ⟨hoob, hcells, hnotal, hempty⟩ := hwf
  constructor
  · intro i hi
    have hget : b.getitem h i = h.alloc (h.read b.oobRef) := by
      simp [BoundSafeList.getitem, if_neg hi]
    have hfresh : (b.getitem h i).2 = h.store.length := by
      rw [hget]; rfl
    have hheap : (b.getitem h i).1 = (h.alloc (h.read b.oobRef)).1 := by
      rw [hget]
    refine ⟨?_, ?_, ?_, ?_, ?_⟩
    · rw [hfresh]
      intro hmem
      exact absurd (hcells _ hmem) (lt_irrefl _)
    · rw [hfresh]
      exact fun hc => absurd hoob (by rw [hc]; exact lt_irrefl _)
    · rw [hget, hempty]
      exact heap_read_alloc_fresh h ∅
    · intro v r hr
      rw [hheap, hfresh]
      have hrlt : r < h.store.length := hcells r hr
      rw [heap_read_write_ne _ _ _ _ (by omega)]
      exact heap_read_alloc_old h _ r hrlt
    · intro v i' hi'
      set h2 := ((b.getitem h i).1).write (b.getitem h i).2 v with hh2
      have hoob2 : h2.read b.oobRef = ∅ := by
        rw [hh2, hheap, hfresh]
        rw [heap_read_write_ne _ _ _ _ (by omega)]
        rw [heap_read_alloc_old h _ _ hoob]
        exact hempty
      have hget2 : b.getitem h2 i' = h2.alloc (h2.read b.oobRef) := by
        simp [BoundSafeList.getitem, if_neg hi']
      rw [hget2, hoob2]
      exact heap_read_alloc_fresh h2 ∅
  · intro i hi
    have hget : b.getitem h i = (h, b.cells.getD i.toNat 0) := by
      simp [BoundSafeList.getitem, if_pos hi]
    refine ⟨hget, ?_⟩
    intro v
    have hlt : i.toNat < b.cells.length := by omega
    have hmem : b.cells.getD i.toNat 0 ∈ b.cells := by
      rw [List.getD_eq_getElem _ _ hlt]
      exact List.getElem_mem hlt
    exact heap_read_write_self h _ v (hcells _ hmem)

/-- Witness for C6: a one-cell track (cell object `0`, sentinel object `1`,
both empty) read at index `-1`. -/
theorem boundsafe_getitem_witness :
    BoundSafeList.WF ⟨[0], 1⟩ ⟨[∅, ∅]⟩ ∧
      (BoundSafeList.getitem ⟨[0], 1⟩ ⟨[∅, ∅]⟩ (-1)).2 ∉ ([0] : List ℕ) ∧
      ((BoundSafeList.getitem ⟨[0], 1⟩ ⟨[∅, ∅]⟩ (-1)).1).read
        (BoundSafeList.getitem ⟨[0], 1⟩ ⟨[∅, ∅]⟩ (-1)).2 = ∅ ∧
      BoundSafeList.getitem ⟨[0], 1⟩ ⟨[∅, ∅]⟩ 0 = (⟨[∅, ∅]⟩, 0) := by
  have hwf : BoundSafeList.WF ⟨[0], 1⟩ ⟨[∅, ∅]⟩ := by
    refine ⟨by decide, ?_, by decide, by decide⟩
    intro r hr
    simp at hr
    simp [hr]
  have hmain := boundsafe_getitem_fresh_oob_live_inrange ⟨[0], 1⟩ ⟨[∅, ∅]⟩ hwf
  have hoobpart := hmain.1 (-1) (by norm_num)
  have hinpart := hmain.2 0 (by norm_num)
  exact ⟨hwf, hoobpart.1, hoobpart.2.2.1, hinpart.1⟩

/-! ## Loadable.unload, Track.remove, Reporter.unregister
(constituents.py / framework.py)

`Loadable.unload` is the rigorous fallback: remove the agent from every track
cell (`Track.remove` iterates all cells, `pos.remove(value)` swallowing
`KeyError`), unregister it from the reporter (`Reporter.unregister` drains
`list.remove` until `ValueError`), and drain `nextUpdates.removeData` (first
node whose data `is` the agent) until `ValueError`.  Agents are identified by
numbers; track cells are Python sets, modelled as `Finset ℕ`. -/

structure SimResources where
  track : List (Finset ℕ)
  reportables : List ℕ
  queue : OLL ℕ
deriving DecidableEq

/-- `Track.remove`: `for pos in self: pos.remove(value) except KeyError` —
set removal in every cell, tolerating absence. -/
def Track.remove (a : ℕ) (track : List (Finset ℕ)) : List (Finset ℕ) :=
  track.map (fun c => c.erase a)

/-- `Reporter.unregister`: `while True: self.reportables.remove(reportable)`
until `ValueError`; each `list.remove` deletes the first occurrence. -/
def drainRemove (l : List ℕ) (a : ℕ) : List ℕ :=
  if h : a ∈ l then drainRemove (l.erase a) a else l
termination_by l.length
decreasing_by
  have := List.length_erase_add_one h
  omega

/-- The `Loadable.unload` queue cleanup: `while True:
sim.nextUpdates.removeData(self)` until `ValueError`; each `removeData`
deletes the first node whose data is the agent. -/
def drainRemoveData (q : OLL ℕ) (a : ℕ) : OLL ℕ :=
  if h : ∃ p ∈ q, p.2 = a then
    drainRemoveData (q.eraseP (fun p => decide (p.2 = a))) a
  else q
termination_by q.length
decreasing_by
  obtain ⟨p, hp, hpa⟩ := h
  have h2 : (q.eraseP (fun p => decide (p.2 = a))).length + 1 = q.length :=
    List.length_eraseP_add_one hp (by simp [hpa])
  omega

/-- `Loadable.unload` fallback: track scan, reporter unregistration, queue
drain. -/
def Loadable.unload (a : ℕ) (s : SimResources) : SimResources :=
  { track := Track.remove a s.track,
    reportables := drainRemove s.reportables a,
    queue := drainRemoveData s.queue a }

theorem not_mem_drainRemove (a : ℕ) : ∀ (n : ℕ) (l : List ℕ), l.length = n →
    a ∉ drainRemove l a := by
  intro n
  induction n using Nat.strong_induction_on with
  | _ n ih =>
    intro l hl
    rw [drainRemove]
    by_cases h : a ∈ l
    · rw [dif_pos h]
      have hlt := List.length_erase_add_one h
      exact ih (l.erase a).length (by omega) (l.erase a) rfl
    · rw [dif_neg h]
      exact h

theorem no_match_drainRemoveData (a : ℕ) : ∀ (n : ℕ) (q : OLL ℕ),
    q.length = n → ∀ p ∈ drainRemoveData q a, p.2 ≠ a := by
  intro n
  induction n using Nat.strong_induction_on with
  | _ n ih =>
    intro q hq
    rw [drainRemoveData]
    by_cases h : ∃ p ∈ q, p.2 = a
    · rw [dif_pos h]
      obtain ⟨p, hp, hpa⟩ := h
      have h2 : (q.eraseP (fun x => decide (x.2 = a))).length + 1 = q.length :=
        List.length_eraseP_add_one hp (by simp [hpa])
      exact ih _ (by omega) _ rfl
    · rw [dif_neg h]
      intro p hp hpa
      exact h ⟨p, hp, hpa⟩

theorem drainRemove_no_mem (a : ℕ) (l : List ℕ) (h : a ∉ l) :
    drainRemove l a = l := by
  rw [drainRemove, dif_neg h]

theorem drainRemoveData_no_match (a : ℕ) (q : OLL ℕ) (h : ∀ p ∈ q, p.2 ≠ a) :
    drainRemoveData q a = q := by
  rw [drainRemoveData, dif_neg]
  rintro ⟨p, hp, hpa⟩
  exact h p hp hpa

/-! ## Claim C8 -/

/-- C8: unload is idempotent — running the `Loadable.unload` fallback twice
for the same agent leaves the track contents, the reporter registration, and
the update queue identical to running it once — and each identity-based
removal in the fallback silently tolerates the target being absent: set
removal in a cell not holding the agent, reporter drain over a list not
containing it, and queue drain over a queue with no entry for it are all
no-ops. -/
theorem unload_idempotent :
    (∀ (a : ℕ) (s : SimResources),
      Loadable.unload a (Loadable.unload a s) = Loadable.unload a s) ∧
    (∀ (a : ℕ) (track : List (Finset ℕ)), (∀ c ∈ track, a ∉ c) →
      Track.remove a track = track) ∧
    (∀ (a : ℕ) (l : List ℕ), a ∉ l → drainRemove l a = l) ∧
    (∀ (a : ℕ) (q : OLL ℕ), (∀ p ∈ q, p.2 ≠ a) → drainRemoveData q a = q) := by
  refine ⟨?_, ?_, drainRemove_no_mem, drainRemoveData_no_match⟩
  · intro a s
    unfold Loadable.unload
    congr 1
    · simp only [Track.remove, List.map_map]
      apply List.map_congr_left
      intro c _
      simp [Function.comp, Finset.erase_idem]
    · exact drainRemove_no_mem a _ (not_mem_drainRemove a _ _ rfl)
    · exact drainRemoveData_no_match a _ (no_match_drainRemoveData a _ _ rfl)
  · intro a track h
    unfold Track.remove
    conv_rhs => rw [← List.map_id track]
    apply List.map_congr_left
    intro c hc
    exact Finset.erase_eq_of_not_mem (h c hc)

/-- Witness for C8: a concrete simulation state with agent `0` on the track,
registered twice with the reporter, and queued twice. -/
theorem unload_idempotent_witness :
    Loadable.unload 0 (Loadable.unload 0 ⟨[{0, 2}, {1}], [0, 3, 0], [(1, 0), (2, 5), (3, 0)]⟩)
        = Loadable.unload 0 ⟨[{0, 2}, {1}], [0, 3, 0], [(1, 0), (2, 5), (3, 0)]⟩ ∧
      Track.remove 0 [{1}, {2, 3}] = [{1}, {2, 3}] ∧
      drainRemove [1, 2] 0 = [1, 2] ∧
      drainRemoveData [(1, 1), (2, 5)] 0 = [(1, 1), (2, 5)] := by
  have h := unload_idempotent
  refine ⟨h.1 0 _, h.2.1 0 _ ?_, h.2.2.1 0 _ (by decide), h.2.2.2 0 _ ?_⟩
  · intro c hc
    simp at hc
    rcases hc with rfl | rfl <;> decide
  · intro p hp
    simp at hp
    rcases hp with rfl | rfl <;> decide

/-! ## Collider.register and Collider.newCollision (framework.py)

The registry is a Python dict keyed on pairs of types, iterated in insertion
order (Python 3.7+).  `register(type0, type1, rule)` stores `rule` under
`(type0, type1)` and, when the types differ, an argument-swapping lambda
under `(type1, type0)`.  `newCollision(obj0, obj1, sim)` iterates the keys,
applies each rule whose type pair matches the objects (`isinstance`, an
abstract subtype test here), appending the produced actions to the pending
list, and for a diagonal key applies its entry a second time with the
arguments swapped.  Types are numbered tags; objects, context, and actions
are abstract. -/

abbrev Rule (Obj σ Act : Type) := Obj → Obj → σ → List Act

abbrev Registry (Obj σ Act : Type) := List ((ℕ × ℕ) × Rule Obj σ Act)

/-- Python dict assignment `d[k] = v`: a present key keeps its position in
the iteration order and gets the new value; a new key is appended. -/
def dictInsert (reg : Registry Obj σ Act) (k : ℕ × ℕ) (v : Rule Obj σ Act) :
    Registry Obj σ Act :=
  if reg.any (fun kv => decide (kv.1 = k)) then
    reg.map (fun kv => if kv.1 = k then (k, v) else kv)
  else reg ++ [(k, v)]

/-- `Collider.register` for single (non-list) types and a single rule. -/
def Collider.register (reg : Registry Obj σ Act) (type0 type1 : ℕ)
    (rule : Rule Obj σ Act) : Registry Obj σ Act :=
  let reg1 := dictInsert reg (type0, type1) rule
  if type0 ≠ type1 then
    dictInsert reg1 (type1, type0) (fun obj1 obj0 sim => rule obj0 obj1 sim)
  else reg1

/-- `Collider.newCollision`: iterate the registry keys in insertion order;
every key whose two types match `obj0` and `obj1` contributes its rule's
actions, and a diagonal key contributes its rule a second time with swapped
arguments (in the source that second call looks the same entry up again). -/
def Collider.newCollision (reg : Registry Obj σ Act) (isinst : Obj → ℕ → Bool)
    (obj0 obj1 : Obj) (sim : σ) : List Act :=
  reg.foldl (fun acc kv =>
    if isinst obj0 kv.1.1 && isinst obj1 kv.1.2 then
      acc ++ kv.2 obj0 obj1 sim ++
        (if kv.1.1 = kv.1.2 then kv.2 obj1 obj0 sim else [])
    else acc) []

/-! ## Claim C9 -/

/-- C9: collision registration is commutative for distinct types `A ≠ B`:
registering `rule` under `(A, B)` and dispatching `newCollision` on an
A-instance and a B-instance accumulates exactly the same actions as
registering the argument-swapped rule under `(B, A)` and dispatching the
swapped pair; and in every matching call the instance matching the first
registered type is passed to `rule` as the first argument (second
conjunct). -/
theorem collider_register_commutative {Obj σ Act : Type} (A B : ℕ) (hAB : A ≠ B)
    (rule : Rule Obj σ Act) (isinst : Obj → ℕ → Bool) (a b : Obj) (sim : σ) :
    Collider.newCollision (Collider.register [] A B rule) isinst a b sim
        = Collider.newCollision
            (Collider.register [] B A (fun o1 o0 s => rule o0 o1 s)) isinst b a sim ∧
      Collider.newCollision (Collider.register [] A B rule) isinst a b sim
        = (if isinst a A && isinst b B then rule a b sim else []) ++
          (if isinst a B && isinst b A then rule b a sim else []) := by
  have hBA : B ≠ A := Ne.symm hAB
  have hreg1 : Collider.register ([] : Registry Obj σ Act) A B rule
      = [((A, B), rule), ((B, A), fun o1 o0 s => rule o0 o1 s)] := by
    simp [Collider.register, dictInsert, hAB, Prod.ext_iff]
  have hreg2 : Collider.register ([] : Registry Obj σ Act) B A (fun o1 o0 s => rule o0 o1 s)
      = [((B, A), fun o1 o0 s => rule o0 o1 s), ((A, B), rule)] := by
    simp [Collider.register, dictInsert, hBA, Prod.ext_iff]
  rw [hreg1, hreg2]
  simp only [Collider.newCollision, List.foldl]
  constructor
  · by_cases h1 : isinst a A <;> by_cases h2 : isinst b B <;>
      by_cases h3 : isinst a B <;> by_cases h4 : isinst b A <;>
      simp [h1, h2, h3, h4, hAB, hBA]
  · by_cases h1 : isinst a A <;> by_cases h2 : isinst b B <;>
      by_cases h3 : isinst a B <;> by_cases h4 : isinst b A <;>
      simp [h1, h2, h3, h4, hAB, hBA]

/-- Witness for C9: tags `0 ≠ 1`, objects `10` (an instance of tag `0` only)
and `11` (an instance of tag `1` only), and a rule producing one action
recording its argument order. -/
theorem collider_register_commutative_witness :
    Collider.newCollision
        (Collider.register [] 0 1 (fun (o0 o1 : ℕ) (_ : Unit) => [(o0, o1)]))
        (fun o t => decide (o = 10 + t)) 10 11 ()
      = Collider.newCollision
          (Collider.register [] 1 0 (fun o1 o0 _ => [(o0, o1)]))
          (fun o t => decide (o = 10 + t)) 11 10 () ∧
    Collider.newCollision
        (Collider.register [] 0 1 (fun (o0 o1 : ℕ) (_ : Unit) => [(o0, o1)]))
        (fun o t => decide (o = 10 + t)) 10 11 ()
      = (if decide (10 = 10 + 0) && decide (11 = 10 + 1) then [(10, 11)] else []) ++
        (if decide (10 = 10 + 1) && decide (11 = 10 + 0) then [(11, 10)] else []) :=
  collider_register_commutative 0 1 (by decide)
    (fun o0 o1 _ => [(o0, o1)]) (fun o t => decide (o = 10 + t)) 10 11 ()

/-! ## Track.nextEmpty (framework.py)

`nextEmpty(start, direction)` runs `while len(self[pos]) > 0: pos +=
direction` and returns `pos`.  The read goes through
`BoundSafeList.__getitem__`, so any off-track index yields an empty cell
(freshness is irrelevant here, only its contents).  The Python loop has no
intrinsic bound, so the embedding takes explicit fuel; `none` means the fuel
ran out before the loop exited. -/

/-- Contents seen through a track read at an arbitrary integer index. -/
def Track.cellAt (cells : List (Finset ℕ)) (i : ℤ) : Finset ℕ :=
  if 0 ≤ i ∧ i < (cells.length : ℤ) then cells.getD i.toNat ∅ else ∅

/-- `Track.nextEmpty` loop with fuel. -/
def Track.nextEmptyFuel (cells : List (Finset ℕ)) (dir : ℤ) :
    ℕ → ℤ → Option ℤ
  | 0, _ => none
  | fuel + 1, pos =>
    if (Track.cellAt cells pos).card > 0 then
      Track.nextEmptyFuel cells dir fuel (pos + dir)
    else some pos

theorem cellAt_oob (cells : List (Finset ℕ)) (i : ℤ)
    (h : ¬(0 ≤ i ∧ i < (cells.length : ℤ))) : Track.cellAt cells i = ∅ := by
  rw [Track.cellAt, if_neg h]

theorem cellAt_mem (cells : List (Finset ℕ)) (i : ℤ)
    (h : 0 ≤ i ∧ i < (cells.length : ℤ)) : Track.cellAt cells i ∈ cells := by
  rw [Track.cellAt, if_pos h]
  have hlt : i.toNat < cells.length := by omega
  rw [List.getD_eq_getElem _ _ hlt]
  exact List.getElem_mem hlt

theorem nextEmpty_up (cells : List (Finset ℕ)) :
    ∀ (fuel : ℕ) (pos : ℤ), 0 ≤ pos → pos ≤ (cells.length : ℤ) →
      (cells.length : ℤ) - pos < fuel →
      ∃ r, Track.nextEmptyFuel cells 1 fuel pos = some r ∧
        r ≤ (cells.length : ℤ) ∧
        ((∀ c ∈ cells, c ≠ ∅) → r = (cells.length : ℤ)) := by
  intro fuel
  induction fuel with
  | zero => intro pos h0 hle hf; omega
  | succ n ih =>
    intro pos h0 hle hf
    rw [Track.nextEmptyFuel]
    by_cases hc : (Track.cellAt cells pos).card > 0
    · rw [if_pos hc]
      have hin : pos < (cells.length : ℤ) := by
        by_contra hge
        rw [cellAt_oob cells pos (by omega)] at hc
        simp at hc
      obtain ⟨r, hr, hrle, hrfull⟩ := ih (pos + 1) (by omega) (by omega) (by omega)
      exact ⟨r, hr, hrle, hrfull⟩
    · rw [if_neg hc]
      refine ⟨pos, rfl, hle, ?_⟩
      intro hfull
      by_contra hne
      have hin : pos < (cells.length : ℤ) := by omega
      have := hfull _ (cellAt_mem cells pos ⟨h0, hin⟩)
      exact hc (Finset.card_pos.mpr (Finset.nonempty_iff_ne_empty.mpr this))

theorem nextEmpty_down (cells : List (Finset ℕ)) :
    ∀ (fuel : ℕ) (pos : ℤ), -1 ≤ pos → pos < (cells.length : ℤ) →
      pos + 1 < fuel →
      ∃ r, Track.nextEmptyFuel cells (-1) fuel pos = some r ∧
        -1 ≤ r ∧
        ((∀ c ∈ cells, c ≠ ∅) → r = -1) := by
  intro fuel
  induction fuel with
  | zero => intro pos h0 hle hf; omega
  | succ n ih =>
    intro pos h0 hle hf
    rw [Track.nextEmptyFuel]
    by_cases hc : (Track.cellAt cells pos).card > 0
    · rw [if_pos hc]
      have hin : 0 ≤ pos := by
        by_contra hlt
        rw [cellAt_oob cells pos (by omega)] at hc
        simp at hc
      obtain ⟨r, hr, hrle, hrfull⟩ := ih (pos - 1) (by omega) (by omega) (by omega)
      exact ⟨r, by simpa using hr, hrle, hrfull⟩
    · rw [if_neg hc]
      refine ⟨pos, rfl, h0, ?_⟩
      intro hfull
      by_contra hne
      have hin : 0 ≤ pos := by omega
      have := hfull _ (cellAt_mem cells pos ⟨hin, hle⟩)
      exact hc (Finset.card_pos.mpr (Finset.nonempty_iff_ne_empty.mpr this))

/-! ## Claim C10 -/

/-- C10: `Track.nextEmpty(start, direction)` terminates for every in-range
start and direction in `{-1, +1}` — fuel `L + 2` always suffices — even when
no empty cell exists within bounds, because out-of-bounds reads yield empty
cells; and when every in-bounds cell is occupied the scan stops exactly at
the first off-track index, returning `L` for direction `+1` and `-1` for
direction `-1`. -/
theorem track_nextEmpty_terminates (cells : List (Finset ℕ)) (start dir : ℤ)
    (hs : 0 ≤ start ∧ start < (cells.length : ℤ)) (hd : dir = 1 ∨ dir = -1) :
    (∃ r, Track.nextEmptyFuel cells dir (cells.length + 2) start = some r) ∧
      ((∀ c ∈ cells, c ≠ ∅) →
        Track.nextEmptyFuel cells dir (cells.length + 2) start
          = some (if dir = 1 then (cells.length : ℤ) else -1)) := by
  rcases hd with rfl | rfl
  · obtain ⟨r, hr, hrle, hrfull⟩ :=
      nextEmpty_up cells (cells.length + 2) start hs.1 (by omega) (by omega)
    refine ⟨⟨r, hr⟩, ?_⟩
    intro hfull
    rw [hr, if_pos rfl, hrfull hfull]
  · obtain ⟨r, hr, hrle, hrfull⟩ :=
      nextEmpty_down cells (cells.length + 2) start (by omega) hs.2 (by omega)
    refine ⟨⟨r, hr⟩, ?_⟩
    intro hfull
    rw [hr, if_neg (by norm_num), hrfull hfull]

/-- Witness for C10: a fully occupied two-cell track scanned upward from
cell `0` stops at the off-track index `2`. -/
theorem track_nextEmpty_terminates_witness :
    (∃ r, Track.nextEmptyFuel [{0}, {1}] 1 4 0 = some r) ∧
      ((∀ c ∈ [({0} : Finset ℕ), {1}], c ≠ ∅) →
        Track.nextEmptyFuel [{0}, {1}] 1 4 0
          = some (if (1 : ℤ) = 1 then ((List.length [({0} : Finset ℕ), {1}] : ℕ) : ℤ) else -1)) := by
  have h := track_nextEmpty_terminates [{0}, {1}] 0 1 (by constructor <;> norm_num)
    (Or.inl rfl)
  exact h

end Karo
